import Mathlib

/-!
# Download pipeline of `main.go`

A shallow embedding of the PDF download pipeline (`main`, `getFileExtension`,
`getFileNameOnly`, `removeDuplicatesFromSlice`, `isUrlValid`, `fileExists`,
`downloadPDF`, `getDataFromURL`) together with the parts of the Go standard
library they call (`strings.HasPrefix`, `strings.Contains`, `filepath.Ext`,
`path.Base`, `filepath.Clean`, `filepath.Join`, `url.ParseRequestURI`).

Go strings are modelled by their sequence of characters.  Every library
function used here only inspects ASCII bytes, and an ASCII byte never occurs
inside the UTF-8 encoding of another character, so scanning characters and
scanning bytes agree.  The package `path/filepath` depends on the operating
system the program is built for; both of its builds, Unix and Windows, are
modelled (after Go 1.22) and selected by a parameter.  The package `path` is
the same everywhere: its only separator is the slash.
-/

namespace BayerDocs

/-- A Go string, as the sequence of its characters. -/
abbrev GoString := List Char

/-- A byte sequence (`[]byte`, a response body, the content of a file). -/
abbrev Bytes := List UInt8

/-! ## Standard library: strings and paths -/

/-- Go `strings.HasPrefix(s, p)`: does `s` begin with `p`. -/
def stringsHasPrefix (s p : GoString) : Bool :=
  p.isPrefixOf s

/-- Go `strings.HasSuffix(s, p)`: does `s` end with `p`. -/
def stringsHasSuffix (s p : GoString) : Bool :=
  p.isSuffixOf s

/-- Go `strings.Contains(s, sub)`: does `sub` occur in `s` as a contiguous block. -/
def stringsContains : GoString → GoString → Bool
  | [], sub => sub.isEmpty
  | c :: s, sub => sub.isPrefixOf (c :: s) || stringsContains s sub

/-- The operating system the program is built for; it selects the build of
`path/filepath` (`path` is the same on both). -/
inductive GOOS
  | unix
  | windows
  deriving DecidableEq, Repr

/-- The backslash character. -/
def backslash : Char := Char.ofNat 92

/-- The zero byte, the content of a freshly made buffer. -/
def zeroByte : Char := Char.ofNat 0

/-- Go `os.IsPathSeparator(c)`: the slash, and on Windows also the backslash. -/
def isPathSeparator (goos : GOOS) (c : Char) : Bool :=
  match goos with
  | .unix => c = '/'
  | .windows => c = backslash || c = '/'

/-- Go `filepath.Separator`. -/
def separator : GOOS → Char
  | .unix => '/'
  | .windows => backslash

/-- The loop of Go `filepath.Ext`: the index runs from the last byte towards the
front.  The first argument is the part of the path not yet visited, reversed
(its head is `path[i]`); the second is `path[i+1:]`.  The loop stops with the
empty string on a separator, and with `path[i:]` on a dot. -/
def extLoop (goos : GOOS) : List Char → GoString → GoString
  | [], _ => []
  | c :: rev, suffix =>
    if isPathSeparator goos c then []
    else if c = '.' then c :: suffix
    else extLoop goos rev (c :: suffix)

/-- Go `filepath.Ext(path)`: the suffix beginning at the final dot of the final
element of `path`, empty if there is no dot. -/
def filepathExt (goos : GOOS) (path : GoString) : GoString :=
  extLoop goos path.reverse []

/-- The first loop of Go `path.Base`: strip trailing slashes. -/
def stripTrailingSlashes (p : GoString) : GoString :=
  (p.reverse.dropWhile (fun c => c = '/')).reverse

/-- The second step of Go `path.Base`:
`if i := strings.LastIndex(path, "/"); i >= 0 { path = path[i+1:] }`. -/
def afterLastSlash (p : GoString) : GoString :=
  (p.reverse.takeWhile (fun c => c ≠ '/')).reverse

/-- Go `path.Base(path)`: the last element of `path`. -/
def pathBase (path : GoString) : GoString :=
  if path = [] then ['.']
  else
    let path1 := stripTrailingSlashes path
    let path2 := afterLastSlash path1
    if path2 = [] then ['/'] else path2

/-- Go `filepath.FromSlash(path)`: on Windows every slash becomes a backslash. -/
def fromSlash (goos : GOOS) (path : GoString) : GoString :=
  match goos with
  | .unix => path
  | .windows => path.map (fun c => if c = '/' then backslash else c)

/-- Go `toUpper` of `path/filepath` on Windows. -/
def toUpper (c : Char) : Char :=
  if 97 ≤ c.toNat ∧ c.toNat ≤ 122 then Char.ofNat (c.toNat - 32) else c

/-- Go `pathHasPrefixFold(s, pfx)` of `path/filepath` on Windows: `s` begins
with `pfx`, ignoring case and treating all separators alike, and the byte after
it, if any, is a separator. -/
def pathHasPrefixFold (s pfx : GoString) : Bool :=
  if s.length < pfx.length then false
  else if !(List.zipWith
      (fun p c =>
        if isPathSeparator .windows p then isPathSeparator .windows c
        else decide (toUpper p = toUpper c)) pfx s).all id then false
  else if s.length > pfx.length ∧ !isPathSeparator .windows (s.getD pfx.length zeroByte) then
    false
  else true

/-- The loop of Go `uncLen`, at index `i` with `rest = path[i:]` and `count`
separators seen: the index of the second separator, or the length of the path. -/
def uncLenLoop : GoString → Nat → Nat → Nat
  | [], i, _ => i
  | c :: rest, i, count =>
    if isPathSeparator .windows c then
      if count + 1 = 2 then i else uncLenLoop rest (i + 1) (count + 1)
    else uncLenLoop rest (i + 1) count

/-- Go `uncLen(path, prefixLen)`: the length of the volume of a UNC path. -/
def uncLen (path : GoString) (prefixLen : Nat) : Nat :=
  if prefixLen ≥ path.length then path.length
  else uncLenLoop (path.drop prefixLen) prefixLen 0

/-- Go `volumeNameLen(path)`: the length of the leading volume name on Windows
(a drive letter, a UNC host and share, a device path), 0 elsewhere. -/
def volumeNameLen (goos : GOOS) (path : GoString) : Nat :=
  match goos with
  | .unix => 0
  | .windows =>
    if path.length ≥ 2 ∧ path.getD 1 zeroByte = ':' then 2
    else if path.length = 0 ∨ !isPathSeparator .windows (path.getD 0 zeroByte) then 0
    else if pathHasPrefixFold path [backslash, backslash, '.', backslash, 'U', 'N', 'C'] then
      uncLen path 8
    else if pathHasPrefixFold path [backslash, backslash, '.'] ||
        pathHasPrefixFold path [backslash, backslash, '?'] ||
        pathHasPrefixFold path [backslash, '?', '?'] then
      if path.length = 3 then 3
      else
        -- cutPath(path[4:]): up to the first separator from index 4 on
        4 + ((path.drop 4).takeWhile (fun c => !isPathSeparator .windows c)).length
    else if path.length ≥ 2 ∧ isPathSeparator .windows (path.getD 1 zeroByte) then uncLen path 2
    else 0

/-- The `lazybuf` of Go `filepath.Clean`: the output buffer, allocated only
when the output starts to differ from the path (`buf` is `none` before that, and
the output is then the first `w` bytes of the path), and the count `w` of bytes
written.  Bytes of `buf` at `w` and beyond are left over from earlier writes. -/
structure LazyBuf where
  /-- Field `buf`; `none` is the nil slice. -/
  buf : Option GoString
  /-- Field `w`. -/
  w : Nat
  deriving DecidableEq, Repr

/-- Go `lazybuf.index(i)`. -/
def LazyBuf.index (path : GoString) (b : LazyBuf) (i : Nat) : Char :=
  match b.buf with
  | some buf => buf.getD i zeroByte
  | none => path.getD i zeroByte

/-- Go `lazybuf.append(c)`. -/
def LazyBuf.append (path : GoString) (b : LazyBuf) (c : Char) : LazyBuf :=
  match b.buf with
  | none =>
    if b.w < path.length ∧ path.getD b.w zeroByte = c then { b with w := b.w + 1 }
    else
      -- b.buf = make([]byte, len(b.path)); copy(b.buf, b.path[:b.w])
      let buf := path.take b.w ++ List.replicate (path.length - b.w) zeroByte
      { buf := some (buf.set b.w c), w := b.w + 1 }
  | some buf => { buf := some (buf.set b.w c), w := b.w + 1 }

/-- Go `lazybuf.string()`, without the volume name in front. -/
def LazyBuf.string (path : GoString) (b : LazyBuf) : GoString :=
  match b.buf with
  | none => path.take b.w
  | some buf => buf.take b.w

/-- The inner loop of the `..` case of Go `filepath.Clean`, entered after
`out.w--`: `for out.w > dotdot && !os.IsPathSeparator(out.index(out.w)) { out.w-- }`.
Returns the final value of `out.w`. -/
def backtrackLoop (goos : GOOS) (path : GoString) (out : LazyBuf) (dotdot : Nat) : Nat → Nat
  | 0 => 0
  | w + 1 =>
    if w + 1 > dotdot ∧ !isPathSeparator goos (out.index path (w + 1)) then
      backtrackLoop goos path out dotdot w
    else w + 1

/-- The main loop of Go `filepath.Clean` on `path` (the volume name taken off).
`rest` is `path[r:]`, `out` the buffer, `dotdot` the index in the output where
`..` must stop. -/
def cleanLoop (goos : GOOS) (path : GoString) (rooted : Bool) (rest : GoString)
    (out : LazyBuf) (dotdot : Nat) : LazyBuf :=
  match rest with
  | [] => out
  | c :: rest1 =>
    if isPathSeparator goos c then
      -- empty path element
      cleanLoop goos path rooted rest1 out dotdot
    else if c = '.' ∧ (rest1 = [] ∨ (rest1.head?.map (isPathSeparator goos)) = some true) then
      -- . element
      cleanLoop goos path rooted rest1 out dotdot
    else if c = '.' ∧ rest1.head? = some '.' ∧
        (rest1.tail = [] ∨ (rest1.tail.head?.map (isPathSeparator goos)) = some true) then
      -- .. element: remove to last separator
      if out.w > dotdot then
        cleanLoop goos path rooted rest1.tail
          { out with w := backtrackLoop goos path out dotdot (out.w - 1) } dotdot
      else if !rooted then
        let out1 := if out.w > 0 then out.append path (separator goos) else out
        let out2 := (out1.append path '.').append path '.'
        cleanLoop goos path rooted rest1.tail out2 out2.w
      else
        cleanLoop goos path rooted rest1.tail out dotdot
    else
      -- real path element: add slash if needed, then copy the element
      let out1 :=
        if (rooted ∧ out.w ≠ 1) ∨ (!rooted ∧ out.w ≠ 0) then out.append path (separator goos)
        else out
      cleanLoop goos path rooted (rest1.dropWhile (fun d => !isPathSeparator goos d))
        ((c :: rest1.takeWhile (fun d => !isPathSeparator goos d)).foldl (LazyBuf.append path) out1)
        dotdot
termination_by rest.length
decreasing_by
  all_goals simp_wf
  all_goals
    first
    | omega
    | exact Nat.lt_succ_of_le (List.dropWhile_sublist _).length_le

/-- The scan of Go `postClean` on Windows: does a colon appear in the buffer
before any separator. -/
def colonBeforeSeparator : GoString → Bool
  | [] => false
  | c :: rest =>
    if isPathSeparator .windows c then false
    else if c = ':' then true
    else colonBeforeSeparator rest

/-- Go `postClean(out)`: on Windows it keeps a relative path from turning into
an absolute or rooted one; it does nothing elsewhere. -/
def postClean (goos : GOOS) (volLen : Nat) (out : LazyBuf) : LazyBuf :=
  match goos, out.buf with
  | .windows, some buf =>
    if volLen ≠ 0 then out
    else if colonBeforeSeparator buf then
      { buf := some ('.' :: backslash :: buf), w := out.w + 2 }
    else if buf.length ≥ 3 ∧ isPathSeparator .windows (buf.getD 0 zeroByte) ∧
        buf.getD 1 zeroByte = '?' ∧ buf.getD 2 zeroByte = '?' then
      { buf := some (backslash :: '.' :: buf), w := out.w + 2 }
    else out
  | _, _ => out

/-- Go `filepath.Clean(path)`. -/
def filepathClean (goos : GOOS) (originalPath : GoString) : GoString :=
  let volLen := volumeNameLen goos originalPath
  let path := originalPath.drop volLen
  if path = [] then
    if volLen > 1 ∧ isPathSeparator goos (originalPath.getD 0 zeroByte) ∧
        isPathSeparator goos (originalPath.getD 1 zeroByte) then
      -- should be UNC
      fromSlash goos originalPath
    else originalPath ++ ['.']
  else
    let rooted : Bool := isPathSeparator goos (path.getD 0 zeroByte)
    let out :=
      if rooted then
        cleanLoop goos path rooted path.tail
          (LazyBuf.append path { buf := none, w := 0 } (separator goos)) 1
      else cleanLoop goos path rooted path { buf := none, w := 0 } 0
    -- Turn empty string into "."
    let out1 := if out.w = 0 then out.append path '.' else out
    let out2 := postClean goos volLen out1
    fromSlash goos (originalPath.take volLen ++ out2.string path)

/-- Go `strings.Join(elems, "/")`. -/
def joinWithSlash : List GoString → GoString
  | [] => []
  | [e] => e
  | e :: es => e ++ '/' :: joinWithSlash es

/-- Go `join` of `path/filepath` on Unix: the elements from the first non-empty
one on, joined by slashes and cleaned; empty if every element is empty. -/
def joinUnix : List GoString → GoString
  | [] => []
  | e :: es => if e ≠ [] then filepathClean .unix (joinWithSlash (e :: es)) else joinUnix es

/-- The loop of Go `join` of `path/filepath` on Windows, on the text built so
far and the variable `lastChar`. -/
def joinWindowsLoop : List GoString → GoString × Char → GoString
  | [], (b, _) => b
  | e :: rest, (b, lastChar) =>
    let step : GoString × GoString × Char :=
      if b.length = 0 then
        -- Add the first non-empty path element unchanged.
        (b, e, lastChar)
      else if isPathSeparator .windows lastChar then
        -- strip any leading slashes from the next path element
        let e1 := e.dropWhile (fun c => isPathSeparator .windows c)
        if b.length = 1 ∧ stringsHasPrefix e1 ['?', '?'] ∧
            (e1.length = 2 ∨ isPathSeparator .windows (e1.getD 2 zeroByte)) then
          (b ++ ['.', backslash], e1, lastChar)
        else (b, e1, lastChar)
      else if lastChar = ':' then (b, e, lastChar)
      else
        -- In all other cases, add a separator between elements.
        (b ++ [backslash], e, backslash)
    if step.2.1.length > 0 then
      joinWindowsLoop rest (step.1 ++ step.2.1, step.2.1.getLastD zeroByte)
    else joinWindowsLoop rest (step.1, step.2.2)

/-- Go `join` of `path/filepath` on Windows. -/
def joinWindows (elem : List GoString) : GoString :=
  let b := joinWindowsLoop elem ([], zeroByte)
  if b.length = 0 then [] else filepathClean .windows b

/-- Go `filepath.Join(elem...)`. -/
def filepathJoin (goos : GOOS) (elem : List GoString) : GoString :=
  match goos with
  | .unix => joinUnix elem
  | .windows => joinWindows elem

/-! ## Standard library: `url.ParseRequestURI`

`isUrlValid` only looks at the error result of `url.ParseRequestURI`, so the
model computes that error result (the parsed URL value is not built).  The
model follows `net/url` (`parse` with `viaRequest = true`, `getScheme`,
`parseAuthority`, `parseHost`, `validUserinfo`, `validOptionalPort`,
`unescape`, `shouldEscape`). -/

/-- The escaping modes of `net/url` that `parse` reaches. -/
inductive Encoding
  | encodePath
  | encodeHost
  | encodeZone
  | encodeUserPassword
  deriving DecidableEq, Repr

/-- Go `stringContainsCTLByte`: a byte below the space or equal to 0x7f. -/
def stringContainsCTLByte (s : GoString) : Bool :=
  s.any (fun b => b.toNat < 32 || b.toNat = 127)

/-- Letters `a`-`z` and `A`-`Z`, on a byte value. -/
def isLetterByte (b : Nat) : Bool :=
  (97 ≤ b && b ≤ 122) || (65 ≤ b && b ≤ 90)

/-- Digits `0`-`9`, on a byte value. -/
def isDigitByte (b : Nat) : Bool :=
  48 ≤ b && b ≤ 57

/-- Go `ishex`. -/
def ishex (c : Char) : Bool :=
  isDigitByte c.toNat || (97 ≤ c.toNat && c.toNat ≤ 102) || (65 ≤ c.toNat && c.toNat ≤ 70)

/-- Go `unhex`. -/
def unhex (c : Char) : Nat :=
  if isDigitByte c.toNat then c.toNat - 48
  else if 97 ≤ c.toNat && c.toNat ≤ 102 then c.toNat - 97 + 10
  else if 65 ≤ c.toNat && c.toNat ≤ 70 then c.toNat - 65 + 10
  else 0

/-- Go `shouldEscape(c, encodeHost)` on a byte value: everything must be escaped
except letters, digits, the sub-delimiters and brackets a host may hold
(``! $ & ' ( ) * + , ; = : [ ] < > "``) and the unreserved marks `- _ . ~`. -/
def shouldEscapeHost (b : Nat) : Bool :=
  !(isLetterByte b || isDigitByte b ||
    [33, 36, 38, 39, 40, 41, 42, 43, 44, 59, 61, 58, 91, 93, 60, 62, 34].contains b ||
    [45, 95, 46, 126].contains b)

/-- The checking loop of Go `unescape(s, mode)`: the error it returns, if any.
(The decoding pass that follows the checks cannot fail.) -/
def unescapeError (mode : Encoding) : GoString → Option String
  | [] => none
  | '%' :: a :: b :: rest =>
    if !ishex a || !ishex b then some "invalid URL escape"
    else if mode = .encodeHost ∧ unhex a < 8 ∧ ¬(a = '2' ∧ b = '5') then
      some "invalid URL escape"
    else if mode = .encodeZone ∧ ¬(a = '2' ∧ b = '5') ∧ unhex a * 16 + unhex b ≠ 32 ∧
        shouldEscapeHost (unhex a * 16 + unhex b) then
      some "invalid URL escape"
    else unescapeError mode rest
  | ['%', _] => some "invalid URL escape"
  | ['%'] => some "invalid URL escape"
  | c :: rest =>
    if (mode = .encodeHost ∨ mode = .encodeZone) ∧ c.toNat < 128 ∧ shouldEscapeHost c.toNat then
      some "invalid character in host name"
    else unescapeError mode rest

/-- The loop of Go `getScheme`, at index `i` with `rest = rawURL[i:]`: the
error, or the scheme and the remainder of the URL. -/
def getSchemeLoop (rawURL : GoString) : GoString → Nat → Except String (GoString × GoString)
  | [], _ => .ok ([], rawURL)
  | c :: rest, i =>
    if isLetterByte c.toNat then getSchemeLoop rawURL rest (i + 1)
    else if isDigitByte c.toNat ∨ c = '+' ∨ c = '-' ∨ c = '.' then
      if i = 0 then .ok ([], rawURL) else getSchemeLoop rawURL rest (i + 1)
    else if c = ':' then
      if i = 0 then .error "missing protocol scheme" else .ok (rawURL.take i, rest)
    else .ok ([], rawURL)

/-- Go `getScheme(rawURL)`. -/
def getScheme (rawURL : GoString) : Except String (GoString × GoString) :=
  getSchemeLoop rawURL rawURL 0

/-- Go `validUserinfo`. -/
def validUserinfo (s : GoString) : Bool :=
  s.all (fun r => isLetterByte r.toNat || isDigitByte r.toNat ||
    [45, 46, 95, 58, 126, 33, 36, 38, 39, 40, 41, 42, 43, 44, 59, 61, 37, 64].contains r.toNat)

/-- Go `validOptionalPort`: empty, or a colon followed by digits only. -/
def validOptionalPort : GoString → Bool
  | [] => true
  | c :: digits => c = ':' && digits.all (fun b => isDigitByte b.toNat)

/-- The text from the last occurrence of `c` in `s` on (that occurrence
included), or `none` when `c` does not occur: `s[strings.LastIndex(s, c):]`. -/
def fromLast (c : Char) (s : GoString) : Option GoString :=
  if c ∈ s then some (c :: (s.reverse.takeWhile (fun d => d ≠ c)).reverse) else none

/-- The text before the last occurrence of `c` in `s`: `s[:strings.LastIndex(s, c)]`. -/
def beforeLast (c : Char) (s : GoString) : GoString :=
  (s.reverse.dropWhile (fun d => d ≠ c)).reverse.dropLast

/-- Go `strings.Index(s, "%25")`, as the split of `s` at the first occurrence:
the text before it and the text from it on. -/
def splitAtZone : GoString → Option (GoString × GoString)
  | [] => none
  | c :: s =>
    if ['%', '2', '5'].isPrefixOf (c :: s) then some ([], c :: s)
    else (splitAtZone s).map (fun hz => (c :: hz.1, hz.2))

/-- Go `parseHost(host)`: the error it returns, if any. -/
def parseHostError (host : GoString) : Option String :=
  if stringsHasPrefix host ['['] then
    match fromLast ']' host with
    | none => some "missing ']' in host"
    | some closing =>
      -- closing = host[i:], so host[i+1:] is its tail and host[:i] is beforeLast
      if !validOptionalPort closing.tail then some "invalid port after host"
      else
        match splitAtZone (beforeLast ']' host) with
        | some (host1, zone) =>
          (unescapeError .encodeHost host1 <|> unescapeError .encodeZone zone) <|>
            unescapeError .encodeHost closing
        | none => unescapeError .encodeHost host
  else
    match fromLast ':' host with
    | some colonPort =>
      if !validOptionalPort colonPort then some "invalid port after host"
      else unescapeError .encodeHost host
    | none => unescapeError .encodeHost host

/-- Go `parseAuthority(authority)`: the error it returns, if any. -/
def parseAuthorityError (authority : GoString) : Option String :=
  match fromLast '@' authority with
  | none => parseHostError authority
  | some atHost =>
    match parseHostError atHost.tail with
    | some e => some e
    | none =>
      let userinfo := beforeLast '@' authority
      if !validUserinfo userinfo then some "net/url: invalid userinfo"
      else if !stringsContains userinfo [':'] then unescapeError .encodeUserPassword userinfo
      else
        -- strings.Cut(userinfo, ":")
        unescapeError .encodeUserPassword (userinfo.takeWhile (fun c => c ≠ ':')) <|>
          unescapeError .encodeUserPassword ((userinfo.dropWhile (fun c => c ≠ ':')).tail)

/-- Go `parse(rawURL, true)`, the body of `url.ParseRequestURI`: the error it
returns, if any. -/
def urlParseRequestURIError (rawURL : GoString) : Option String :=
  if stringContainsCTLByte rawURL then some "net/url: invalid control character in URL"
  else if rawURL = [] then some "empty url"
  else if rawURL = ['*'] then none
  else
    match getScheme rawURL with
    | .error e => some e
    | .ok (scheme, rest0) =>
      let rest :=
        if stringsHasSuffix rest0 ['?'] ∧ rest0.count '?' = 1 then rest0.dropLast
        else rest0.takeWhile (fun c => c ≠ '?')
      if !stringsHasPrefix rest ['/'] then
        if scheme ≠ [] then none else some "invalid URI for request"
      else if scheme ≠ [] ∧ stringsHasPrefix rest ['/', '/'] then
        let afterSlashes := rest.drop 2
        let authority := afterSlashes.takeWhile (fun c => c ≠ '/')
        let path := afterSlashes.dropWhile (fun c => c ≠ '/')
        parseAuthorityError authority <|> unescapeError .encodePath path
      else unescapeError .encodePath rest

/-! ## The world the program runs in -/

/-- What a path of the filesystem holds. -/
inductive Node
  | file (content : Bytes)
  | dir
  deriving DecidableEq, Repr

/-- The filesystem: what `os.Stat` finds at each path (`none`: the call fails). -/
abbrev FileSystem := GoString → Option Node

/-- An HTTP response as the program observes it. -/
structure Response where
  /-- Field `resp.StatusCode`. -/
  statusCode : Int
  /-- Field `resp.Status`. -/
  status : GoString
  /-- The value of `resp.Header.Get("Content-Type")`. -/
  contentType : GoString
  /-- The bytes `resp.Body` delivers before it ends. -/
  body : Bytes
  /-- The error that ends the body stream; `none` when it ends with EOF. -/
  bodyErr : Option String
  /-- The error of `resp.Body.Close()`, if any. -/
  closeErr : Option String
  deriving DecidableEq, Repr

/-- The two results `(resp, err)` of `client.Get` and `http.Get`.  With a nil
error the response is present; with an error there is usually none (the
library returns both only when a redirect check fails). -/
inductive GetResult
  | ok (resp : Response)
  | failed (err : String) (resp : Option Response)
  deriving DecidableEq, Repr

/-- The lines the program logs. -/
inductive LogEntry
  | scraping (uri : GoString)
  | error (err : String)
  | fileExistsSkipping (filePath : GoString)
  | failedToDownload (finalURL : GoString) (err : String)
  | downloadFailed (finalURL : GoString) (status : GoString)
  | invalidContentType (finalURL : GoString) (contentType : GoString)
  | failedToRead (finalURL : GoString) (err : String)
  | zeroBytes (finalURL : GoString)
  | failedToCreate (finalURL : GoString) (err : String)
  | failedToWrite (finalURL : GoString) (err : String)
  | success (written : Nat) (finalURL : GoString) (filePath : GoString)
  deriving DecidableEq, Repr

/-- The type of the data to extract. -/
structure Document where
  /-- Field `URL`, JSON key `url`. -/
  URL : GoString
  deriving DecidableEq, Repr

/-- The answers of the environment: the transport, the operating system and
the JSON decoder. -/
structure Env where
  /-- The operating system the program is built for. -/
  goos : GOOS
  /-- The transport: the result of a GET request on a URL. -/
  get : GoString → GetResult
  /-- An error of `os.Create` at a path for a reason outside the model
  (permissions, a missing parent directory). -/
  createErr : GoString → Option String
  /-- A failure of the write to the file at a path: the number of bytes that
  reached the file, and the error. -/
  writeErr : GoString → Option (Nat × String)
  /-- An error of `os.Mkdir` at a path for a reason outside the model. -/
  mkdirErr : GoString → Option String
  /-- Go `json.Unmarshal` into a `[]Document`: the slice it leaves and its error. -/
  unmarshal : Bytes → List Document × Option String

/-- The state the program changes. -/
structure World where
  /-- The filesystem. -/
  fs : FileSystem
  /-- The URLs of the GET requests sent so far, oldest first. -/
  requests : List GoString
  /-- The log, oldest line first. -/
  log : List LogEntry

/-- Append a line to the log. -/
def World.logf (w : World) (e : LogEntry) : World :=
  { w with log := w.log ++ [e] }

/-- How a call ends: it returns a value, or the goroutine panics. -/
inductive Outcome (α : Type)
  | returned (value : α) (w : World)
  | panicked (msg : String) (w : World)

/-- Go `os.Create(path)`: fails on a directory or when the environment says so,
else leaves an empty file at `path` (an existing file is truncated). -/
def osCreate (env : Env) (fs : FileSystem) (path : GoString) : Except String FileSystem :=
  match fs path with
  | some .dir => .error "is a directory"
  | _ =>
    match env.createErr path with
    | some e => .error e
    | none => .ok (Function.update fs path (some (.file [])))

/-- The write `buf.WriteTo(out)` to the file just created at `path`: all of
`data` reaches the file, or a part of it and an error is returned. -/
def writeTo (env : Env) (fs : FileSystem) (path : GoString) (data : Bytes) :
    FileSystem × Option String :=
  match env.writeErr path with
  | some (n, e) => (Function.update fs path (some (.file (data.take n))), some e)
  | none => (Function.update fs path (some (.file data)), none)

/-- Go `os.Mkdir(path, perm)`: fails when something is at `path` already or when
the environment says so, else creates the directory. -/
def osMkdir (env : Env) (fs : FileSystem) (path : GoString) : Except String FileSystem :=
  match fs path with
  | some _ => .error "file exists"
  | none =>
    match env.mkdirErr path with
    | some e => .error e
    | none => .ok (Function.update fs path (some .dir))

/-! ## The program -/

/-- Only return the file name from a given url. -/
def getFileNameOnly (content : GoString) : GoString :=
  pathBase content

/-- Checks whether a file exists at the given path: `os.Stat` succeeds and the
entry is not a directory. -/
def fileExists (fs : FileSystem) (filename : GoString) : Bool :=
  match fs filename with
  | none => false
  | some info => info ≠ .dir

/-- Checks if the directory exists. -/
def directoryExists (fs : FileSystem) (path : GoString) : Bool :=
  match fs path with
  | none => false
  | some directory => directory = .dir

/-- Creates the directory; an error is logged. -/
def createDirectory (env : Env) (w : World) (path : GoString) : World :=
  match osMkdir env w.fs path with
  | .error e => w.logf (.error e)
  | .ok fs1 => { w with fs := fs1 }

/-- Get the file extension of a file. -/
def getFileExtension (goos : GOOS) (path : GoString) : GoString :=
  filepathExt goos path

/-- Checks whether a URL string is syntactically valid. -/
def isUrlValid (uri : GoString) : Bool :=
  urlParseRequestURIError uri = none

/-- The loop of `removeDuplicatesFromSlice`, on the map `check` (a missing key
reads as `false`) and the slice built so far. -/
def removeDuplicatesLoop :
    List GoString → (GoString → Bool) × List GoString → (GoString → Bool) × List GoString
  | [], st => st
  | content :: rest, (check, newReturnSlice) =>
    if !check content then
      removeDuplicatesLoop rest (Function.update check content true, newReturnSlice ++ [content])
    else removeDuplicatesLoop rest (check, newReturnSlice)

/-- Remove all the duplicates from a slice and return the slice. -/
def removeDuplicatesFromSlice (slice : List GoString) : List GoString :=
  (removeDuplicatesLoop slice (fun _ => false, [])).2

/-- Append some string to a slice and than return the slice. -/
def appendToSlice (slice : List GoString) (content : GoString) : List GoString :=
  slice ++ [content]

/-- Go `downloadPDF(finalURL, outputDir)`: the boolean it returns and the world
it leaves. -/
def downloadPDF (env : Env) (w : World) (finalURL outputDir : GoString) : Bool × World :=
  let filename := getFileNameOnly finalURL
  let filePath := filepathJoin env.goos [outputDir, filename]
  -- Skip if the file already exists
  if fileExists w.fs filePath then (false, w.logf (.fileExistsSkipping filePath))
  else
    -- Send GET request
    let w1 : World := { w with requests := w.requests ++ [finalURL] }
    match env.get finalURL with
    | .failed err _ => (false, w1.logf (.failedToDownload finalURL err))
    | .ok resp =>
      -- Check HTTP response status
      if resp.statusCode ≠ 200 then (false, w1.logf (.downloadFailed finalURL resp.status))
      -- Check Content-Type header
      else if !stringsContains resp.contentType "application/pdf".toList then
        (false, w1.logf (.invalidContentType finalURL resp.contentType))
      else
        -- Read the response body into memory first
        match resp.bodyErr with
        | some err => (false, w1.logf (.failedToRead finalURL err))
        | none =>
          let written := resp.body.length
          if written = 0 then (false, w1.logf (.zeroBytes finalURL))
          else
            -- Only now create the file and write to disk
            match osCreate env w1.fs filePath with
            | .error err => (false, w1.logf (.failedToCreate finalURL err))
            | .ok fs1 =>
              match writeTo env fs1 filePath resp.body with
              | (fs2, some err) =>
                (false, { w1 with fs := fs2 }.logf (.failedToWrite finalURL err))
              | (fs2, none) =>
                (true, { w1 with fs := fs2 }.logf (.success written finalURL filePath))

/-- Go `getDataFromURL(uri)`: a failed request is logged and execution goes on
to `response.Body`, which panics when the response is nil. -/
def getDataFromURL (env : Env) (w : World) (uri : GoString) : Outcome Bytes :=
  let w1 := w.logf (.scraping uri)
  let w2 : World := { w1 with requests := w1.requests ++ [uri] }
  let result := env.get uri
  let response : Option Response :=
    match result with
    | .ok resp => some resp
    | .failed _ resp => resp
  let w3 :=
    match result with
    | .ok _ => w2
    | .failed err _ => w2.logf (.error err)
  match response with
  | none => .panicked "invalid memory address or nil pointer dereference" w3
  | some resp =>
    -- io.ReadAll returns what it read, also with an error
    let w4 :=
      match resp.bodyErr with
      | some err => w3.logf (.error err)
      | none => w3
    let w5 :=
      match resp.closeErr with
      | some err => w4.logf (.error err)
      | none => w4
    .returned resp.body w5

/-- Get the list of download urls from the given data. -/
def getDownloadURLFromGivenData (env : Env) (w : World) (givenData : Bytes) :
    List Document × World :=
  match env.unmarshal givenData with
  | (returnURLs, some err) => (returnURLs, w.logf (.error err))
  | (returnURLs, none) => (returnURLs, w)

/-- The first loop of `main`: keep the URLs with the extension `.pdf`. -/
def collectPdfURLs (goos : GOOS) : List Document → List GoString → List GoString
  | [], downloadURLSlice => downloadURLSlice
  | doc :: rest, downloadURLSlice =>
    if getFileExtension goos doc.URL = ".pdf".toList then
      collectPdfURLs goos rest (appendToSlice downloadURLSlice doc.URL)
    else collectPdfURLs goos rest downloadURLSlice

/-- The origin literal `main` compares against and prepends. -/
def origin : GoString := "https://cropscience.bayer.co.uk".toList

/-- The value of `finalURL` in an iteration of the second loop of `main`, when
the checks are reached: declared with the zero value (the empty string) and
assigned only when `urls` lacks the origin. -/
def finalURL (urls : GoString) : GoString :=
  if !stringsHasPrefix urls origin then origin ++ urls else []

/-- The second loop of `main`.  Beside the world it keeps the list of the URLs
on which `downloadPDF` was called, oldest first. -/
def downloadLoop (env : Env) (outputDir : GoString) :
    List GoString → World × List GoString → World × List GoString
  | [], st => st
  | urls :: rest, (w, calls) =>
    if isUrlValid (finalURL urls) then
      downloadLoop env outputDir rest
        ((downloadPDF env w (finalURL urls) outputDir).2, calls ++ [finalURL urls])
    else downloadLoop env outputDir rest (w, calls)

/-- The body of `main` from the parsed index `finalList` on: the world it
leaves and the URLs on which `downloadPDF` was called, in order. -/
def mainFromList (env : Env) (w : World) (finalList : List Document) :
    World × List GoString :=
  let downloadURLSlice := collectPdfURLs env.goos finalList []
  let outputDir := "PDFs/".toList
  let w1 := if !directoryExists w.fs outputDir then createDirectory env w outputDir else w
  let downloadURLSlice1 := removeDuplicatesFromSlice downloadURLSlice
  downloadLoop env outputDir downloadURLSlice1 (w1, [])

/-- Go `main`. -/
def main (env : Env) (w : World) : Outcome (List GoString) :=
  let remoteAPIURL := "https://cropscience.bayer.co.uk/api/documents".toList
  match getDataFromURL env w remoteAPIURL with
  | .panicked msg w1 => .panicked msg w1
  | .returned getData w1 =>
    let (finalList, w2) := getDownloadURLFromGivenData env w1 getData
    let (w3, calls) := mainFromList env w2 finalList
    .returned calls w3

/-! ## Reference definitions, written from the specification -/

/-- The specification of the deduplicator, position by position: the element
at position `i` of `xs` is kept exactly when it does not occur at an earlier
position, and the kept elements stay in their order. -/
def firstOccurrences (xs : List GoString) : List GoString :=
  (List.range xs.length).filterMap
    (fun i => if xs.getD i [] ∈ xs.take i then none else xs[i]?)

/-- The path component of a URL in the words of the specification: the URL
with any query string or fragment ignored, that is, the text before the first
question mark or hash sign. -/
def specPathComponent (u : GoString) : GoString :=
  u.takeWhile (fun c => c ≠ '?' && c ≠ '#')

/-- The filter in the words of the specification: the path component of the
URL ends in `.pdf`, compared case-sensitively. -/
def specRetains (u : GoString) : Bool :=
  stringsHasSuffix (specPathComponent u) ".pdf".toList

/-! ## Concrete inputs -/

/-- A response that passes every check of `downloadPDF`: status 200, a PDF
content type and a body of four bytes. -/
def pdfResponse : Response :=
  { statusCode := 200
    status := "200 OK".toList
    contentType := "application/pdf; charset=binary".toList
    body := [37, 80, 68, 70]
    bodyErr := none
    closeErr := none }

/-- A response with status 404. -/
def notFoundResponse : Response :=
  { statusCode := 404
    status := "404 Not Found".toList
    contentType := "text/html".toList
    body := [60, 104, 49, 62]
    bodyErr := none
    closeErr := none }

/-- An environment for a build on `goos` whose transport answers every request
with `r` and whose operating system calls do not fail. -/
def envAnswering (goos : GOOS) (r : GetResult) : Env :=
  { goos := goos
    get := fun _ => r
    createErr := fun _ => none
    writeErr := fun _ => none
    mkdirErr := fun _ => none
    unmarshal := fun _ => ([], none) }

/-- A world with the output directory, no file in it, no request sent. -/
def freshWorld : World :=
  { fs := fun p => if p = "PDFs/".toList then some .dir else none
    requests := []
    log := [] }

/-- A world where `PDFs/x.pdf` exists already, with three bytes. -/
def worldWithFile : World :=
  { fs := fun p =>
      if p = "PDFs/".toList then some .dir
      else if p = "PDFs/x.pdf".toList then some (.file [1, 2, 3])
      else none
    requests := []
    log := [] }

/-- The URL of the concrete cases. -/
def xURL : GoString := "https://cropscience.bayer.co.uk/x.pdf".toList

/-- A record URL whose last slash-separated element holds backslashes. -/
def evilURL : GoString := "/..\\..\\evil.pdf".toList

/-! ## Lemmas on the deduplicator -/

theorem firstOccurrences_nil : firstOccurrences [] = [] := rfl

theorem firstOccurrences_snoc (pre : List GoString) (c : GoString) :
    firstOccurrences (pre ++ [c]) = firstOccurrences pre ++ (if c ∈ pre then [] else [c]) := by
  unfold firstOccurrences
  rw [List.length_append, List.length_singleton, List.range_succ, List.filterMap_append]
  congr 1
  · apply List.filterMap_congr
    intro i hi
    have hi1 : i < pre.length := List.mem_range.mp hi
    have h1 : (pre ++ [c]).getD i [] = pre.getD i [] := by
      simp [List.getD, List.getElem?_append_left hi1]
    have h2 : (pre ++ [c]).take i = pre.take i := by
      rw [List.take_append_of_le_length (Nat.le_of_lt hi1)]
    have h3 : (pre ++ [c])[i]? = pre[i]? := List.getElem?_append_left hi1
    rw [h1, h2, h3]
  · simp [List.getD]
    by_cases h : c ∈ pre <;> simp [h]

theorem mem_firstOccurrences (xs : List GoString) (x : GoString) :
    x ∈ firstOccurrences xs ↔ x ∈ xs := by
  induction xs using List.reverseRecOn with
  | nil => simp [firstOccurrences_nil]
  | append_singleton pre c ih =>
    rw [firstOccurrences_snoc]
    by_cases h : c ∈ pre
    · simp only [h, if_true, List.append_nil, ih, List.mem_append, List.mem_singleton]
      constructor
      · intro hx; exact Or.inl hx
      · rintro (hx | hx)
        · exact hx
        · exact hx ▸ h
    · simp [h, ih]

theorem nodup_firstOccurrences (xs : List GoString) : (firstOccurrences xs).Nodup := by
  induction xs using List.reverseRecOn with
  | nil => simp [firstOccurrences_nil]
  | append_singleton pre c ih =>
    rw [firstOccurrences_snoc]
    by_cases h : c ∈ pre
    · simpa [h] using ih
    · simp only [h, if_false]
      rw [List.nodup_append]
      refine ⟨ih, List.nodup_singleton c, ?_⟩
      intro a ha hb
      rw [List.mem_singleton] at hb
      rw [mem_firstOccurrences] at ha
      exact h (hb ▸ ha)

theorem firstOccurrences_of_nodup (xs : List GoString) (h : xs.Nodup) :
    firstOccurrences xs = xs := by
  induction xs using List.reverseRecOn with
  | nil => rfl
  | append_singleton pre c ih =>
    rw [firstOccurrences_snoc]
    rw [List.nodup_append] at h
    have hc : c ∉ pre := fun hm => h.2.2 hm (List.mem_singleton_self c)
    rw [ih h.1]
    simp [hc]

/-- The invariant of the loop of `removeDuplicatesFromSlice`: after the prefix
`pre` the map holds the members of `pre` and the slice its first occurrences. -/
theorem removeDuplicatesLoop_spec (rest pre : List GoString) :
    removeDuplicatesLoop rest (fun x => decide (x ∈ pre), firstOccurrences pre) =
      (fun x => decide (x ∈ pre ++ rest), firstOccurrences (pre ++ rest)) := by
  induction rest generalizing pre with
  | nil => simp [removeDuplicatesLoop]
  | cons c rest ih =>
    have hupd : Function.update (fun x => decide (x ∈ pre)) c true =
        fun x => decide (x ∈ pre ++ [c]) := by
      funext x
      by_cases hx : x = c
      · subst hx; simp
      · simp [Function.update, hx]
    have happ : pre ++ c :: rest = (pre ++ [c]) ++ rest := by simp
    by_cases h : c ∈ pre
    · have hsame : (fun x => decide (x ∈ pre)) = fun x => decide (x ∈ pre ++ [c]) := by
        funext x
        by_cases hx : x = c
        · subst hx; simp [h]
        · simp [hx]
      have hfo : firstOccurrences pre = firstOccurrences (pre ++ [c]) := by
        rw [firstOccurrences_snoc]; simp [h]
      rw [removeDuplicatesLoop]
      simp only [h, decide_True, Bool.not_true, Bool.false_eq_true, if_false]
      rw [hsame, hfo, ih (pre ++ [c]), happ]
    · have hfo : firstOccurrences pre ++ [c] = firstOccurrences (pre ++ [c]) := by
        rw [firstOccurrences_snoc]; simp [h]
      rw [removeDuplicatesLoop]
      simp only [h, decide_False, Bool.not_false, if_true]
      rw [hupd, hfo, ih (pre ++ [c]), happ]

theorem removeDuplicatesFromSlice_eq (xs : List GoString) :
    removeDuplicatesFromSlice xs = firstOccurrences xs := by
  have h := removeDuplicatesLoop_spec xs []
  simp only [List.not_mem_nil, decide_False, List.nil_append, firstOccurrences_nil] at h
  unfold removeDuplicatesFromSlice
  rw [h]

/-! ## Lemmas on the extension filter -/

theorem extLoop_nil_or_longer (goos : GOOS) (rev suffix : GoString) :
    extLoop goos rev suffix = [] ∨ suffix.length < (extLoop goos rev suffix).length := by
  induction rev generalizing suffix with
  | nil => left; rfl
  | cons c rev ih =>
    unfold extLoop
    by_cases h1 : isPathSeparator goos c = true
    · left; rw [if_pos h1]
    · rw [if_neg h1]
      by_cases h2 : c = '.'
      · right; rw [if_pos h2]; simp
      · rw [if_neg h2]
        rcases ih (c :: suffix) with h | h
        · left; exact h
        · right
          simp only [List.length_cons] at h
          omega

theorem isPathSeparator_pdf (goos : GOOS) :
    isPathSeparator goos 'f' = false ∧ isPathSeparator goos 'd' = false ∧
    isPathSeparator goos 'p' = false ∧ isPathSeparator goos '.' = false := by
  cases goos <;> decide

theorem filepathExt_eq_pdf_iff (goos : GOOS) (u : GoString) :
    filepathExt goos u = ['.', 'p', 'd', 'f'] ↔ ['.', 'p', 'd', 'f'] <:+ u := by
  have hrev : (['.', 'p', 'd', 'f'] <:+ u) ↔ (['f', 'd', 'p', '.'] <+: u.reverse) := by
    rw [← List.reverse_prefix]; rfl
  rw [hrev]
  unfold filepathExt
  generalize u.reverse = r
  constructor
  · intro h
    match r, h with
    | [], h => simp [extLoop] at h
    | [c1], h =>
      simp only [extLoop] at h
      split_ifs at h
      simp at h
    | [c1, c2], h =>
      simp only [extLoop] at h
      split_ifs at h <;> simp at h
    | [c1, c2, c3], h =>
      simp only [extLoop] at h
      split_ifs at h <;> simp at h
    | c1 :: c2 :: c3 :: c4 :: r4, h =>
      simp only [extLoop] at h
      split_ifs at h with h1 h2 h3 h4 h5 h6 h7 h8
      all_goals try (simp at h; done)
      · simp only [List.cons.injEq, and_true] at h
        obtain ⟨-, e3, e2, e1⟩ := h
        subst e1 e2 e3 h8
        exact List.prefix_append _ r4
      · rcases extLoop_nil_or_longer goos r4 [c4, c3, c2, c1] with hh | hh
        · rw [hh] at h; simp at h
        · rw [h] at hh; simp at hh
  · rintro ⟨t, rfl⟩
    obtain ⟨hf, hd, hp, hdot⟩ := isPathSeparator_pdf goos
    simp [extLoop, hf, hd, hp, hdot]

theorem getFileExtension_eq_pdf_iff (goos : GOOS) (u : GoString) :
    getFileExtension goos u = ".pdf".toList ↔ stringsHasSuffix u ".pdf".toList = true := by
  have hlit : ".pdf".toList = ['.', 'p', 'd', 'f'] := rfl
  unfold getFileExtension stringsHasSuffix
  rw [hlit, filepathExt_eq_pdf_iff, List.isSuffixOf_iff_suffix]

theorem collectPdfURLs_eq (goos : GOOS) (docs : List Document) (acc : List GoString) :
    collectPdfURLs goos docs acc =
      acc ++ (docs.map Document.URL).filter (fun u => stringsHasSuffix u ".pdf".toList) := by
  induction docs generalizing acc with
  | nil => simp [collectPdfURLs]
  | cons doc rest ih =>
    unfold collectPdfURLs
    by_cases h : stringsHasSuffix doc.URL ".pdf".toList = true
    · have h1 : getFileExtension goos doc.URL = ".pdf".toList :=
        (getFileExtension_eq_pdf_iff goos _).mpr h
      simp only [h1, if_true, appendToSlice, ih, List.map_cons, List.filter_cons, h]
      simp
    · have h1 : ¬ getFileExtension goos doc.URL = ".pdf".toList :=
        fun hh => h ((getFileExtension_eq_pdf_iff goos _).mp hh)
      simp only [h1, if_false, ih, List.map_cons, List.filter_cons, h]
      simp

/-! ## Lemmas on the download loop -/

theorem isUrlValid_nil : isUrlValid [] = false := by decide

theorem finalURL_origin_append (p : GoString) : finalURL (origin ++ p) = [] := by
  have h : stringsHasPrefix (origin ++ p) origin = true := by
    unfold stringsHasPrefix
    rw [List.isPrefixOf_iff_prefix]
    exact List.prefix_append origin p
  simp [finalURL, h]

theorem downloadLoop_calls (env : Env) (outputDir : GoString) (urls : List GoString)
    (w : World) (calls : List GoString) :
    (downloadLoop env outputDir urls (w, calls)).2 =
      calls ++ (urls.map finalURL).filter isUrlValid := by
  induction urls generalizing w calls with
  | nil => simp [downloadLoop]
  | cons u rest ih =>
    unfold downloadLoop
    by_cases h : isUrlValid (finalURL u) = true
    · simp [h, ih]
    · simp [h, ih]

theorem mainFromList_calls (env : Env) (w : World) (finalList : List Document) :
    (mainFromList env w finalList).2 =
      ((removeDuplicatesFromSlice (collectPdfURLs env.goos finalList [])).map finalURL).filter
        isUrlValid := by
  unfold mainFromList
  simp only [downloadLoop_calls, List.nil_append]

/-! ## Lemmas on file names and target paths -/

theorem takeWhile_not_separator_unix (name : GoString) (hslash : '/' ∉ name) :
    name.takeWhile (fun d => !isPathSeparator .unix d) = name := by
  apply List.takeWhile_eq_self_iff.mpr
  intro d hd
  simp only [isPathSeparator, Bool.not_eq_true', decide_eq_false_iff_not]
  intro h
  exact hslash (h ▸ hd)

theorem dropWhile_not_separator_unix (name : GoString) (hslash : '/' ∉ name) :
    name.dropWhile (fun d => !isPathSeparator .unix d) = [] := by
  apply List.dropWhile_eq_nil_iff.mpr
  intro d hd
  simp only [isPathSeparator, Bool.not_eq_true', decide_eq_false_iff_not]
  intro h
  exact hslash (h ▸ hd)

/-- Appending to an allocated buffer writes the bytes one after the other. -/
theorem foldl_append_allocated (path l pre : GoString) (k : Nat) :
    l.foldl (LazyBuf.append path)
        { buf := some (pre ++ List.replicate (l.length + k) zeroByte), w := pre.length } =
      { buf := some (pre ++ l ++ List.replicate k zeroByte), w := pre.length + l.length } := by
  induction l generalizing pre with
  | nil => simp
  | cons d l ih =>
    have hset : (pre ++ List.replicate (l.length + 1 + k) zeroByte).set pre.length d =
        (pre ++ [d]) ++ List.replicate (l.length + k) zeroByte := by
      rw [show l.length + 1 + k = (l.length + k) + 1 by omega, List.replicate_succ,
        List.set_append_right _ _ (Nat.le_refl _)]
      simp
    have hstep : LazyBuf.append path
        { buf := some (pre ++ List.replicate ((d :: l).length + k) zeroByte), w := pre.length } d =
        { buf := some ((pre ++ [d]) ++ List.replicate (l.length + k) zeroByte),
          w := (pre ++ [d]).length } := by
      simp only [LazyBuf.append, List.length_cons, hset, List.length_append, List.length_singleton,
        List.length_nil, Nat.zero_add]
    rw [List.foldl_cons, hstep, ih (pre ++ [d])]
    simp [Nat.add_assoc, Nat.add_comm 1]

/-- The main loop of `filepath.Clean` on Unix, arrived at a single path segment
behind `PDFs//`: it writes a slash and the segment after `PDFs`. -/
theorem cleanLoop_unix_segment (name : GoString) (hne : name ≠ [])
    (hslash : '/' ∉ name) (hdot : name ≠ ['.']) (hdotdot : name ≠ ['.', '.']) :
    cleanLoop .unix ('P' :: 'D' :: 'F' :: 's' :: '/' :: '/' :: name) false name
        { buf := none, w := 4 } 0 =
      { buf := some (['P', 'D', 'F', 's', '/'] ++ name ++ [zeroByte]), w := 5 + name.length } := by
  match name, hne with
  | c :: rest1, _ =>
    have hc : c ≠ '/' := fun h => hslash (h ▸ List.mem_cons_self c rest1)
    have hrest : '/' ∉ rest1 := fun h => hslash (List.mem_cons_of_mem c h)
    have hsep : isPathSeparator .unix c = false := by simp [isPathSeparator, hc]
    have hhead : rest1.head?.map (isPathSeparator .unix) ≠ some true := by
      intro h
      cases rest1 with
      | nil => simp at h
      | cons d r =>
        simp [isPathSeparator] at h
        exact hrest (h ▸ List.mem_cons_self d r)
    have htail : rest1.tail.head?.map (isPathSeparator .unix) ≠ some true := by
      intro h
      cases rest1 with
      | nil => simp at h
      | cons d r =>
        cases r with
        | nil => simp at h
        | cons e r2 =>
          simp [isPathSeparator] at h
          exact hrest (h ▸ List.mem_cons_of_mem d (List.mem_cons_self e r2))
    have h1 : ¬ (c = '.' ∧ (rest1 = [] ∨ rest1.head?.map (isPathSeparator .unix) = some true)) := by
      rintro ⟨hc1, h | h⟩
      · exact hdot (by rw [hc1, h])
      · exact hhead h
    have h2 : ¬ (c = '.' ∧ rest1.head? = some '.' ∧
        (rest1.tail = [] ∨ rest1.tail.head?.map (isPathSeparator .unix) = some true)) := by
      rintro ⟨hc1, hh, h | h⟩
      · apply hdotdot
        cases rest1 with
        | nil => simp at hh
        | cons d r =>
          simp at hh h
          rw [hc1, hh, h]
      · exact htail h
    have hfirst : LazyBuf.append ('P' :: 'D' :: 'F' :: 's' :: '/' :: '/' :: c :: rest1)
        { buf := none, w := 5 } c =
        { buf := some ((['P', 'D', 'F', 's', '/'] ++ [c]) ++
            List.replicate (rest1.length + 1) zeroByte),
          w := (['P', 'D', 'F', 's', '/'] ++ [c]).length } := by
      have hne2 : ¬ ('/' = c) := fun h => hc h.symm
      simp [LazyBuf.append, hne2, List.replicate_succ]
    rw [cleanLoop.eq_def]
    simp only [hsep, Bool.false_eq_true, if_false, h1, h2,
      takeWhile_not_separator_unix rest1 hrest, dropWhile_not_separator_unix rest1 hrest]
    rw [cleanLoop.eq_def]
    have hsepApp : LazyBuf.append ('P' :: 'D' :: 'F' :: 's' :: '/' :: '/' :: c :: rest1)
        { buf := none, w := 4 } (separator .unix) = { buf := none, w := 5 } := by
      simp [LazyBuf.append, separator]
    simp only [Bool.not_false, true_and, Bool.false_eq_true, false_and, false_or, or_false,
      ne_eq, OfNat.ofNat_ne_zero, not_false_eq_true, if_true, hsepApp, List.foldl_cons, hfirst]
    rw [foldl_append_allocated]
    simp [Nat.add_comm, Nat.add_left_comm]

/-- Joining the output directory of `main` and a single path segment gives, on
Unix, the direct child of that name. -/
theorem filepathJoin_output_dir_unix (name : GoString) (hne : name ≠ [])
    (hslash : '/' ∉ name) (hdot : name ≠ ['.']) (hdotdot : name ≠ ['.', '.']) :
    filepathJoin .unix ["PDFs/".toList, name] = "PDFs/".toList ++ name := by
  have hlit : "PDFs/".toList = ['P', 'D', 'F', 's', '/'] := rfl
  have hseg := cleanLoop_unix_segment name hne hslash hdot hdotdot
  rw [hlit]
  simp only [filepathJoin, joinUnix, joinWithSlash, filepathClean, volumeNameLen]
  simp [cleanLoop, isPathSeparator, LazyBuf.append, hseg, postClean, fromSlash,
    LazyBuf.string]
  have hsplit : 'P' :: 'D' :: 'F' :: 's' :: '/' :: (name ++ [zeroByte]) =
      (['P', 'D', 'F', 's', '/'] ++ name) ++ [zeroByte] := by simp
  rw [hsplit, List.take_left' (by simp; omega)]
  simp

theorem pathBase_append_pdf (s : GoString) :
    pathBase (s ++ ['.', 'p', 'd', 'f']) = afterLastSlash s ++ ['.', 'p', 'd', 'f'] := by
  have hne : s ++ ['.', 'p', 'd', 'f'] ≠ [] := by simp
  unfold pathBase
  simp only [hne, if_false]
  have hstrip : stripTrailingSlashes (s ++ ['.', 'p', 'd', 'f']) = s ++ ['.', 'p', 'd', 'f'] := by
    simp [stripTrailingSlashes, List.dropWhile]
  rw [hstrip]
  have hafter : afterLastSlash (s ++ ['.', 'p', 'd', 'f']) =
      afterLastSlash s ++ ['.', 'p', 'd', 'f'] := by
    simp [afterLastSlash, List.takeWhile]
  rw [hafter]
  simp

theorem slash_not_mem_afterLastSlash (s : GoString) : '/' ∉ afterLastSlash s := by
  unfold afterLastSlash
  intro h
  rw [List.mem_reverse] at h
  have := List.mem_takeWhile_imp h
  simp at this

theorem getFileNameOnly_xURL : getFileNameOnly xURL = "x.pdf".toList := by decide

theorem target_path_xURL :
    filepathJoin .unix ["PDFs/".toList, getFileNameOnly xURL] = "PDFs/x.pdf".toList := by
  rw [getFileNameOnly_xURL]
  exact filepathJoin_output_dir_unix _ (by decide) (by decide) (by decide) (by decide)

theorem getFileNameOnly_evilURL :
    getFileNameOnly (finalURL evilURL) = "..\\..\\evil.pdf".toList := by decide

theorem target_path_evilURL :
    filepathJoin .windows ["PDFs/".toList, getFileNameOnly (finalURL evilURL)] =
      "..\\evil.pdf".toList := by
  rw [getFileNameOnly_evilURL]
  have h1 : "PDFs/".toList = ['P', 'D', 'F', 's', '/'] := rfl
  have h2 : "..\\..\\evil.pdf".toList =
      ['.', '.', backslash, '.', '.', backslash, 'e', 'v', 'i', 'l', '.', 'p', 'd', 'f'] := by
    decide
  have h3 : "..\\evil.pdf".toList =
      ['.', '.', backslash, 'e', 'v', 'i', 'l', '.', 'p', 'd', 'f'] := by decide
  rw [h1, h2, h3]
  simp [filepathJoin, joinWindows, joinWindowsLoop, filepathClean, volumeNameLen, cleanLoop,
    isPathSeparator, separator, LazyBuf.append, LazyBuf.index, LazyBuf.string, backtrackLoop,
    postClean, colonBeforeSeparator, fromSlash, stringsHasPrefix, zeroByte, backslash]

/-! ## Theorems -/

/-- C4: the output of removeDuplicatesFromSlice has no repeated element, and it
is the list of first occurrences of the input in their original order: the
element at position i of the input is kept exactly when it does not occur at
an earlier position. -/
theorem removeDuplicatesFromSlice_first_occurrences (xs : List GoString) :
    (removeDuplicatesFromSlice xs).Nodup ∧
    removeDuplicatesFromSlice xs = firstOccurrences xs ∧
    (∀ x, x ∈ removeDuplicatesFromSlice xs ↔ x ∈ xs) := by
  rw [removeDuplicatesFromSlice_eq]
  exact ⟨nodup_firstOccurrences xs, rfl, mem_firstOccurrences xs⟩

/-- C5: removeDuplicatesFromSlice is idempotent. -/
theorem removeDuplicatesFromSlice_idempotent (xs : List GoString) :
    removeDuplicatesFromSlice (removeDuplicatesFromSlice xs) = removeDuplicatesFromSlice xs := by
  rw [removeDuplicatesFromSlice_eq (removeDuplicatesFromSlice xs)]
  apply firstOccurrences_of_nodup
  rw [removeDuplicatesFromSlice_eq]
  exact nodup_firstOccurrences xs


/-- C1 (the code at the failing input): for a URL that already starts with the
origin, such as https://cropscience.bayer.co.uk/c.pdf, the loop of main leaves
finalURL at its zero value, the empty string; the validity check rejects it
and downloadPDF is not called.  A URL without the origin, such as /docs/a.pdf,
gets the origin prepended. -/
theorem finalURL_of_origin_url_is_empty (p : GoString) (env : Env) (w : World) :
    finalURL (origin ++ p) = [] ∧
    isUrlValid (finalURL (origin ++ p)) = false ∧
    (downloadLoop env "PDFs/".toList [origin ++ p] (w, [])).2 = [] ∧
    finalURL "https://cropscience.bayer.co.uk/c.pdf".toList = [] ∧
    finalURL "/docs/a.pdf".toList = "https://cropscience.bayer.co.uk/docs/a.pdf".toList := by
  refine ⟨finalURL_origin_append p, ?_, ?_, by decide, by decide⟩
  · rw [finalURL_origin_append]; exact isUrlValid_nil
  · rw [downloadLoop_calls]
    simp [finalURL_origin_append, isUrlValid_nil]

/-- C2 (the code at the failing input): on the parsed index
/a.pdf, /a.pdf, /b.txt, https://cropscience.bayer.co.uk/c.pdf the program calls
downloadPDF once only, on https://cropscience.bayer.co.uk/a.pdf; the entry
that already carries the origin is never downloaded. -/
theorem mainFromList_scenario_calls (env : Env) (w : World) :
    (mainFromList env w
      [⟨"/a.pdf".toList⟩, ⟨"/a.pdf".toList⟩, ⟨"/b.txt".toList⟩,
       ⟨"https://cropscience.bayer.co.uk/c.pdf".toList⟩]).2 =
      ["https://cropscience.bayer.co.uk/a.pdf".toList] := by
  rw [mainFromList_calls, collectPdfURLs_eq]
  decide

/-- C3 (counterexample): the filter does not keep exactly the URLs whose path
component ends in .pdf with the query string ignored: /a.pdf?v=1 is such a URL
and the filter drops it. -/
theorem collectPdfURLs_not_path_component :
    ¬ (∀ docs : List Document,
        collectPdfURLs .unix docs [] = (docs.map Document.URL).filter specRetains) ∧
    ¬ (∀ docs : List Document,
        collectPdfURLs .windows docs [] = (docs.map Document.URL).filter specRetains) := by
  constructor
  · intro h
    have h1 := h [⟨"/a.pdf?v=1".toList⟩]
    revert h1
    decide
  · intro h
    have h1 := h [⟨"/a.pdf?v=1".toList⟩]
    revert h1
    decide

/-- C3 (amended): the URLs retained by the filter loop of main are exactly the
subsequence, in the original order, of the record URLs whose whole text ends
in .pdf, compared case-sensitively; a query string or fragment is part of the
text and is not ignored, so of /a.pdf, /a.pdf?v=1, /a.pdf#top, /a.PDF, /b.txt
and /x?f=b.pdf only the first and the last are retained. -/
theorem collectPdfURLs_whole_text_suffix (goos : GOOS) (docs : List Document) :
    collectPdfURLs goos docs [] =
      (docs.map Document.URL).filter (fun u => stringsHasSuffix u ".pdf".toList) ∧
    collectPdfURLs goos
      [⟨"/a.pdf".toList⟩, ⟨"/a.pdf?v=1".toList⟩, ⟨"/a.pdf#top".toList⟩, ⟨"/a.PDF".toList⟩,
       ⟨"/b.txt".toList⟩, ⟨"/x?f=b.pdf".toList⟩] [] =
      ["/a.pdf".toList, "/x?f=b.pdf".toList] := by
  refine ⟨?_, ?_⟩
  · rw [collectPdfURLs_eq]
    simp
  · rw [collectPdfURLs_eq]
    decide

/-- C9 (the code at the failing input): when the GET request fails and the
transport returns no response, getDataFromURL logs the error and then panics
on the nil response; it returns no byte sequence, and main ends in that panic
instead of going on with zero documents. -/
theorem getDataFromURL_panics_on_failed_request (env : Env) (w : World) (uri : GoString)
    (err : String) :
    getDataFromURL { env with get := fun _ => .failed err none } w uri =
      .panicked "invalid memory address or nil pointer dereference"
        { fs := w.fs
          requests := w.requests ++ [uri]
          log := w.log ++ [.scraping uri, .error err] } ∧
    main { env with get := fun _ => .failed err none } w =
      .panicked "invalid memory address or nil pointer dereference"
        { fs := w.fs
          requests := w.requests ++ ["https://cropscience.bayer.co.uk/api/documents".toList]
          log := w.log ++
            [.scraping "https://cropscience.bayer.co.uk/api/documents".toList, .error err] } := by
  constructor
  · simp [getDataFromURL, World.logf]
  · simp [main, getDataFromURL, World.logf]


/-- C7: when a non-directory file already exists at the target path (outputDir
joined with the basename of the URL), downloadPDF returns false, sends no
request (the list of requests, hence its count, is unchanged) and leaves the
filesystem, the existing file included, unchanged. -/
theorem downloadPDF_skips_existing (env : Env) (w : World) (url outputDir : GoString)
    (content : Bytes)
    (hexists : w.fs (filepathJoin env.goos [outputDir, getFileNameOnly url]) = some (.file content)) :
    (downloadPDF env w url outputDir).1 = false ∧
    (downloadPDF env w url outputDir).2.requests = w.requests ∧
    (w.requests.length = 0 → (downloadPDF env w url outputDir).2.requests.length = 0) ∧
    (downloadPDF env w url outputDir).2.fs = w.fs ∧
    (downloadPDF env w url outputDir).2.fs (filepathJoin env.goos [outputDir, getFileNameOnly url]) =
      some (.file content) := by
  have hfe : fileExists w.fs (filepathJoin env.goos [outputDir, getFileNameOnly url]) = true := by
    simp [fileExists, hexists]
  simp [downloadPDF, hfe, World.logf, hexists]

/-- C6: when no file exists at the target path, the transport answers with
status 200, a Content-Type containing application/pdf and a non-empty body
read to its end, and creating and writing the file succeed, downloadPDF
returns true and afterwards the file at the target path holds exactly the
bytes of the body; the other paths of the filesystem are unchanged. -/
theorem downloadPDF_success (env : Env) (w : World) (url outputDir : GoString)
    (resp : Response)
    (hnofile : fileExists w.fs (filepathJoin env.goos [outputDir, getFileNameOnly url]) = false)
    (hget : env.get url = .ok resp)
    (hstatus : resp.statusCode = 200)
    (hctype : stringsContains resp.contentType "application/pdf".toList = true)
    (hbody : resp.body ≠ [])
    (hread : resp.bodyErr = none)
    (hcreate : ∃ fs1, osCreate env w.fs (filepathJoin env.goos [outputDir, getFileNameOnly url]) = .ok fs1)
    (hwrite : env.writeErr (filepathJoin env.goos [outputDir, getFileNameOnly url]) = none) :
    (downloadPDF env w url outputDir).1 = true ∧
    (downloadPDF env w url outputDir).2.fs (filepathJoin env.goos [outputDir, getFileNameOnly url]) =
      some (.file resp.body) ∧
    (∀ q, q ≠ filepathJoin env.goos [outputDir, getFileNameOnly url] →
      (downloadPDF env w url outputDir).2.fs q = w.fs q) := by
  obtain ⟨fs1, hfs1⟩ := hcreate
  have hlen : resp.body.length ≠ 0 := by
    intro h; exact hbody (List.length_eq_zero.mp h)
  have hfs1eq : fs1 = Function.update w.fs (filepathJoin env.goos [outputDir, getFileNameOnly url])
      (some (.file [])) := by
    unfold osCreate at hfs1
    split at hfs1
    · cases hfs1
    · split at hfs1
      · cases hfs1
      · injection hfs1 with h; exact h.symm
  subst hfs1eq
  have hlit : "application/pdf".toList =
      ['a', 'p', 'p', 'l', 'i', 'c', 'a', 't', 'i', 'o', 'n', '/', 'p', 'd', 'f'] := rfl
  rw [hlit] at hctype
  refine ⟨?_, ?_, ?_⟩
  · simp [downloadPDF, hnofile, hget, hstatus, hctype, hread, hlen, hfs1, writeTo, hwrite]
  · simp [downloadPDF, hnofile, hget, hstatus, hctype, hread, hlen, hfs1, writeTo, hwrite,
      World.logf]
  · intro q hq
    simp [downloadPDF, hnofile, hget, hstatus, hctype, hread, hlen, hfs1, writeTo, hwrite,
      World.logf, Function.update, hq]

/-- C8: when no file exists at the target path and the response fails
validation (a status other than 200, a Content-Type that does not contain
application/pdf, or a body of zero bytes), downloadPDF returns false and the
filesystem after the call equals the filesystem before it: no file is
created. -/
theorem downloadPDF_rejects_invalid_response (env : Env) (w : World)
    (url outputDir : GoString) (resp : Response)
    (hnofile : fileExists w.fs (filepathJoin env.goos [outputDir, getFileNameOnly url]) = false)
    (hget : env.get url = .ok resp)
    (hinvalid : resp.statusCode ≠ 200 ∨
      stringsContains resp.contentType "application/pdf".toList = false ∨
      resp.body.length = 0) :
    (downloadPDF env w url outputDir).1 = false ∧
    (downloadPDF env w url outputDir).2.fs = w.fs := by
  have hlit : "application/pdf".toList =
      ['a', 'p', 'p', 'l', 'i', 'c', 'a', 't', 'i', 'o', 'n', '/', 'p', 'd', 'f'] := rfl
  rw [hlit] at hinvalid
  unfold downloadPDF
  simp only [hnofile, hget, hlit]
  by_cases h1 : resp.statusCode = 200
  · by_cases h2 : stringsContains resp.contentType
        ['a', 'p', 'p', 'l', 'i', 'c', 'a', 't', 'i', 'o', 'n', '/', 'p', 'd', 'f'] = true
    · have h3 : resp.body.length = 0 := by
        rcases hinvalid with h | h | h
        · exact absurd h1 h
        · rw [h2] at h; cases h
        · exact h
      cases hb : resp.bodyErr <;> simp [h1, h2, h3, World.logf]
    · simp [h1, h2, World.logf]
  · simp [h1, World.logf]


/-- Witness of C7: PDFs/x.pdf exists with three bytes; the call for
https://cropscience.bayer.co.uk/x.pdf returns false, sends nothing and leaves
the file as it was. -/
theorem downloadPDF_skips_existing_witness :
    worldWithFile.fs (filepathJoin .unix ["PDFs/".toList, getFileNameOnly xURL]) =
      some (.file [1, 2, 3]) ∧
    (downloadPDF (envAnswering .unix (.ok pdfResponse)) worldWithFile xURL "PDFs/".toList).1 = false ∧
    (downloadPDF (envAnswering .unix (.ok pdfResponse)) worldWithFile xURL "PDFs/".toList).2.requests
      = [] ∧
    (downloadPDF (envAnswering .unix (.ok pdfResponse)) worldWithFile xURL "PDFs/".toList).2.fs
      (filepathJoin .unix ["PDFs/".toList, getFileNameOnly xURL]) = some (.file [1, 2, 3]) := by
  have hex : worldWithFile.fs (filepathJoin .unix ["PDFs/".toList, getFileNameOnly xURL]) =
      some (.file [1, 2, 3]) := by
    rw [target_path_xURL]; decide
  have h := downloadPDF_skips_existing (envAnswering .unix (.ok pdfResponse)) worldWithFile xURL
    "PDFs/".toList [1, 2, 3] hex
  exact ⟨hex, h.1, h.2.1, h.2.2.2.2⟩

/-- Witness of C6: in the fresh world a response with status 200, a PDF content
type and four bytes makes the call return true and leaves those four bytes at
PDFs/x.pdf. -/
theorem downloadPDF_success_witness :
    (downloadPDF (envAnswering .unix (.ok pdfResponse)) freshWorld xURL "PDFs/".toList).1 = true ∧
    (downloadPDF (envAnswering .unix (.ok pdfResponse)) freshWorld xURL "PDFs/".toList).2.fs
      (filepathJoin .unix ["PDFs/".toList, getFileNameOnly xURL]) = some (.file [37, 80, 68, 70]) := by
  have h := downloadPDF_success (envAnswering .unix (.ok pdfResponse)) freshWorld xURL "PDFs/".toList
    pdfResponse
    (by
      show fileExists freshWorld.fs
        (filepathJoin .unix ["PDFs/".toList, getFileNameOnly xURL]) = false
      rw [target_path_xURL]; decide)
    rfl
    rfl
    (by decide)
    (by decide)
    rfl
    (by
      show ∃ fs1, osCreate (envAnswering .unix (.ok pdfResponse)) freshWorld.fs
        (filepathJoin .unix ["PDFs/".toList, getFileNameOnly xURL]) = .ok fs1
      rw [target_path_xURL]; exact ⟨_, rfl⟩)
    rfl
  exact ⟨h.1, h.2.1⟩

/-- Witness of C8: in the fresh world a response with status 404 makes the call
return false and nothing is created at PDFs/x.pdf. -/
theorem downloadPDF_rejects_invalid_response_witness :
    notFoundResponse.statusCode ≠ 200 ∧
    (downloadPDF (envAnswering .unix (.ok notFoundResponse)) freshWorld xURL "PDFs/".toList).1
      = false ∧
    (downloadPDF (envAnswering .unix (.ok notFoundResponse)) freshWorld xURL "PDFs/".toList).2.fs
      = freshWorld.fs := by
  have h := downloadPDF_rejects_invalid_response (envAnswering .unix (.ok notFoundResponse))
    freshWorld xURL "PDFs/".toList notFoundResponse
    (by
      show fileExists freshWorld.fs
        (filepathJoin .unix ["PDFs/".toList, getFileNameOnly xURL]) = false
      rw [target_path_xURL]; decide)
    rfl
    (Or.inl (by decide))
  exact ⟨by decide, h.1, h.2⟩

/-- C10 (the code at the failing input): on a Windows build the record URL
/..\..\evil.pdf passes the extension filter and the validity check, so main
calls downloadPDF on it.  getFileNameOnly, which splits on the slash only,
returns the name ..\..\evil.pdf: it holds no slash and ends in .pdf, but on
Windows it is not a single path segment.  filepath.Join, which on Windows
also splits on the backslash, resolves the two .. elements and gives the
target ..\evil.pdf, outside the output directory PDFs/, and with a valid PDF
response downloadPDF returns true and the file is written there. -/
theorem download_target_escapes_on_windows (w : World) :
    getFileExtension .windows evilURL = ".pdf".toList ∧
    isUrlValid (finalURL evilURL) = true ∧
    (mainFromList (envAnswering .windows (.ok pdfResponse)) w [⟨evilURL⟩]).2 =
      [finalURL evilURL] ∧
    getFileNameOnly (finalURL evilURL) = "..\\..\\evil.pdf".toList ∧
    '/' ∉ getFileNameOnly (finalURL evilURL) ∧
    filepathJoin .windows ["PDFs/".toList, getFileNameOnly (finalURL evilURL)] =
      "..\\evil.pdf".toList ∧
    (downloadPDF (envAnswering .windows (.ok pdfResponse)) freshWorld (finalURL evilURL)
      "PDFs/".toList).1 = true ∧
    (downloadPDF (envAnswering .windows (.ok pdfResponse)) freshWorld (finalURL evilURL)
      "PDFs/".toList).2.fs "..\\evil.pdf".toList = some (.file [37, 80, 68, 70]) := by
  refine ⟨by decide, by decide, ?_, by decide, by decide, target_path_evilURL, ?_, ?_⟩
  · rw [mainFromList_calls, collectPdfURLs_eq]
    decide
  · have hpath := target_path_evilURL
    have hfree : fileExists freshWorld.fs "..\\evil.pdf".toList = false := by decide
    simp only [downloadPDF, envAnswering, hpath, hfree]
    decide
  · have hpath := target_path_evilURL
    have hfree : fileExists freshWorld.fs "..\\evil.pdf".toList = false := by decide
    simp only [downloadPDF, envAnswering, hpath, hfree]
    decide

/-- On a Unix build the claim of C10 holds: for every record URL that passes the
.pdf extension filter and on which main calls downloadPDF, the file name is not
empty, holds no slash, is neither . nor .., ends in .pdf, and the target path
is the direct child PDFs/name of the output directory. -/
theorem download_target_in_output_dir_unix (u : GoString)
    (hext : getFileExtension .unix u = ".pdf".toList)
    (hcalled : isUrlValid (finalURL u) = true) :
    getFileNameOnly (finalURL u) ≠ [] ∧
    '/' ∉ getFileNameOnly (finalURL u) ∧
    getFileNameOnly (finalURL u) ≠ ['.'] ∧
    getFileNameOnly (finalURL u) ≠ ['.', '.'] ∧
    stringsHasSuffix (getFileNameOnly (finalURL u)) ".pdf".toList = true ∧
    filepathJoin .unix ["PDFs/".toList, getFileNameOnly (finalURL u)] =
      "PDFs/".toList ++ getFileNameOnly (finalURL u) := by
  have hlit : ".pdf".toList = ['.', 'p', 'd', 'f'] := rfl
  -- the URL handed on is the origin followed by the record URL
  have hfinal : finalURL u = origin ++ u := by
    unfold finalURL
    by_cases hp : stringsHasPrefix u origin = true
    · have hempty : finalURL u = [] := by simp [finalURL, hp]
      rw [hempty, isUrlValid_nil] at hcalled
      cases hcalled
    · simp [hp]
  -- the record URL ends in .pdf
  have hsuffix : ['.', 'p', 'd', 'f'] <:+ u := by
    have h := (getFileExtension_eq_pdf_iff .unix u).mp hext
    unfold stringsHasSuffix at h
    rw [hlit, List.isSuffixOf_iff_suffix] at h
    exact h
  obtain ⟨v, rfl⟩ := hsuffix
  have hname : getFileNameOnly (finalURL (v ++ ['.', 'p', 'd', 'f'])) =
      afterLastSlash (origin ++ v) ++ ['.', 'p', 'd', 'f'] := by
    rw [hfinal, ← List.append_assoc]
    exact pathBase_append_pdf (origin ++ v)
  rw [hname]
  have hns := slash_not_mem_afterLastSlash (origin ++ v)
  have h1 : afterLastSlash (origin ++ v) ++ ['.', 'p', 'd', 'f'] ≠ [] := by simp
  have h2 : '/' ∉ afterLastSlash (origin ++ v) ++ ['.', 'p', 'd', 'f'] := by
    intro h
    rw [List.mem_append] at h
    rcases h with h | h
    · exact hns h
    · revert h; decide
  have h3 : afterLastSlash (origin ++ v) ++ ['.', 'p', 'd', 'f'] ≠ ['.'] := by
    intro h
    have := congrArg List.length h
    simp at this
  have h4 : afterLastSlash (origin ++ v) ++ ['.', 'p', 'd', 'f'] ≠ ['.', '.'] := by
    intro h
    have := congrArg List.length h
    simp at this
  refine ⟨h1, h2, h3, h4, ?_, filepathJoin_output_dir_unix _ h1 h2 h3 h4⟩
  unfold stringsHasSuffix
  rw [hlit, List.isSuffixOf_iff_suffix]
  exact List.suffix_append _ _

/-- The Unix statement at the record URL /docs/report.pdf: it passes the
filter, its finalURL is valid, and the target is PDFs/report.pdf. -/
theorem download_target_in_output_dir_unix_witness :
    getFileExtension .unix "/docs/report.pdf".toList = ".pdf".toList ∧
    isUrlValid (finalURL "/docs/report.pdf".toList) = true ∧
    getFileNameOnly (finalURL "/docs/report.pdf".toList) = "report.pdf".toList ∧
    filepathJoin .unix ["PDFs/".toList, getFileNameOnly (finalURL "/docs/report.pdf".toList)] =
      "PDFs/".toList ++ getFileNameOnly (finalURL "/docs/report.pdf".toList) :=
  ⟨by decide, by decide, by decide,
    (download_target_in_output_dir_unix "/docs/report.pdf".toList (by decide)
      (by decide)).2.2.2.2.2⟩

end BayerDocs
